import Mathlib

/-!
Verification of the jigsaw topology generator, pixel partition and piece
rasterizer of the AI jigsaw puzzle generator
(src/components/PuzzleBoard.tsx).

Shallow embedding:
* the discrete part (grid topology, integer pixel partition, batch
  orchestration of `createJigsawPieces`) is modelled over `Nat`, with the
  random joint grids passed in as explicit function arguments (the source
  fills them from `Math.random()` before the main loop, so the rest of the
  computation is a deterministic function of these joints), and the
  per-piece canvas rasterization abstracted as a fallible oracle
  `ras : ... -> Except String String` standing for `createPieceCanvas`
  (whose only failure mode, an unobtainable 2d context, is outside pure
  code);
* the geometric part (`drawSide`, the path construction and canvas sizing
  of `createPieceCanvas`) is modelled over the reals, treating JS floats
  as real numbers.
-/

/-- The `JigsawSide` enum of the source: `enum JigsawSide { KNOB, SOCKET }`. -/
inductive JigsawSide where
  | KNOB
  | SOCKET
  deriving DecidableEq, Repr

/-- A side of a piece is either a jigsaw side or flat: the source type
`JigsawSide | 'FLAT'`. -/
inductive Shape where
  | jig (s : JigsawSide)
  | FLAT
  deriving DecidableEq, Repr

/-- The KNOB/SOCKET flip used inline in the source
(`... === JigsawSide.KNOB ? JigsawSide.SOCKET : JigsawSide.KNOB`). -/
def invert : JigsawSide → JigsawSide
  | JigsawSide.KNOB => JigsawSide.SOCKET
  | JigsawSide.SOCKET => JigsawSide.KNOB

/-- Pointwise logical inverse on a side shape (FLAT has no inverse partner
and maps to itself). -/
def inverseShape : Shape → Shape
  | Shape.jig s => Shape.jig (invert s)
  | Shape.FLAT => Shape.FLAT

/-- The `PieceShape` record of the source: one shape per side. -/
structure PieceShape where
  top : Shape
  right : Shape
  bottom : Shape
  left : Shape
  deriving DecidableEq, Repr

/-- The per-cell shape computation of `createJigsawPieces`
(PuzzleBoard.tsx lines 180-185): `horizontalJoints` and `verticalJoints`
are the random joint grids (modelled as total functions; the source only
reads them at indices `[y][x]` with `x ≤ gridSize-2` resp.
`[y-1][x]` with `y-1 ≤ gridSize-2`, which are in range). -/
def pieceShape (gridSize : ℕ) (horizontalJoints verticalJoints : ℕ → ℕ → JigsawSide)
    (y x : ℕ) : PieceShape where
  top := if y = 0 then Shape.FLAT else Shape.jig (invert (verticalJoints (y - 1) x))
  right := if x = gridSize - 1 then Shape.FLAT else Shape.jig (horizontalJoints y x)
  bottom := if y = gridSize - 1 then Shape.FLAT else Shape.jig (verticalJoints y x)
  left := if x = 0 then Shape.FLAT else Shape.jig (invert (horizontalJoints y (x - 1)))

/-- Column width of column `x`: `basePieceW + (x < remainderW ? 1 : 0)` with
`basePieceW = Math.floor(img.width / gridSize)` and
`remainderW = img.width % gridSize` (PuzzleBoard.tsx lines 165-176). -/
def pieceW (width gridSize x : ℕ) : ℕ :=
  width / gridSize + (if x < width % gridSize then 1 else 0)

/-- Row height of row `y`, symmetric to `pieceW`. -/
def pieceH (height gridSize y : ℕ) : ℕ :=
  height / gridSize + (if y < height % gridSize then 1 else 0)

/-- The source-x origin of column `x`: the accumulator `currentSourceX`
of the generation loop, which starts at 0 and adds `pieceW` after each
column. -/
def currentSourceX (width gridSize : ℕ) : ℕ → ℕ
  | 0 => 0
  | x + 1 => currentSourceX width gridSize x + pieceW width gridSize x

/-- The source-y origin of row `y`: the accumulator `currentSourceY`. -/
def currentSourceY (height gridSize : ℕ) : ℕ → ℕ
  | 0 => 0
  | y + 1 => currentSourceY height gridSize y + pieceH height gridSize y

/-- The grid cells in the order the nested loops of `createJigsawPieces`
visit them: row-major, `(y, x)` with the row index first. -/
def cells (gridSize : ℕ) : List (ℕ × ℕ) :=
  (List.range gridSize).flatMap (fun y => (List.range gridSize).map (fun x => (y, x)))

/-- Sequencing of the fallible per-piece rasterization: the loop body
`try { pieces.push(createPieceCanvas(...)) } catch(err) { return reject(err) }`
stops at the first failure and otherwise collects all results in order. -/
def mapMExcept (f : α → Except String String) : List α → Except String (List String)
  | [] => Except.ok []
  | a :: as =>
    match f a with
    | Except.error e => Except.error e
    | Except.ok b =>
      match mapMExcept f as with
      | Except.error e => Except.error e
      | Except.ok bs => Except.ok (b :: bs)

/-- The body of the generation loop for one cell `c = (y, x)`: the call
`createPieceCanvas(img, currentSourceX, currentSourceY, pieceW, pieceH, shape)`
with the rasterizer abstracted as `ras`. -/
def rasterizeCell (ras : ℕ → ℕ → ℕ → ℕ → PieceShape → Except String String)
    (width height gridSize : ℕ) (horizontalJoints verticalJoints : ℕ → ℕ → JigsawSide)
    (c : ℕ × ℕ) : Except String String :=
  ras (currentSourceX width gridSize c.2) (currentSourceY height gridSize c.1)
    (pieceW width gridSize c.2) (pieceH height gridSize c.1)
    (pieceShape gridSize horizontalJoints verticalJoints c.1 c.2)

/-- `createJigsawPieces` (PuzzleBoard.tsx lines 147-203), after the image
has loaded with dimensions `width × height`: validate that the piece count
is a perfect square (`Number.isInteger(Math.sqrt(pieceCount))`, which for a
natural number is `Nat.sqrt pieceCount * Nat.sqrt pieceCount = pieceCount`),
then rasterize every cell in row-major order with the per-cell source
rectangle and shape, failing the whole batch on the first per-piece
failure. `ras sx sy pw ph shape` stands for
`createPieceCanvas(img, sx, sy, pw, ph, shape)`. -/
def createJigsawPieces (ras : ℕ → ℕ → ℕ → ℕ → PieceShape → Except String String)
    (width height pieceCount : ℕ)
    (horizontalJoints verticalJoints : ℕ → ℕ → JigsawSide) :
    Except String (List String) :=
  let gridSize := Nat.sqrt pieceCount
  if gridSize * gridSize = pieceCount then
    mapMExcept (rasterizeCell ras width height gridSize horizontalJoints verticalJoints)
      (cells gridSize)
  else
    Except.error "Piece count must be a perfect square."

/-- The fixed knob-depth constant of the source: `const KNOB_RATIO = 0.2`. -/
noncomputable def KNOB_RATIO : ℝ := 0.2

/-- A canvas 2d-path command, recording exactly the path calls the source
issues (`moveTo`, `lineTo`, `bezierCurveTo`, `closePath`). -/
inductive PathCmd where
  | moveTo (x y : ℝ)
  | lineTo (x y : ℝ)
  | bezierCurveTo (cp1x cp1y cp2x cp2y x y : ℝ)
  | closePath

/-- `drawSide` (PuzzleBoard.tsx lines 38-78): the list of path commands
emitted for one side running from `(startX, startY)` to `(endX, endY)`,
translated line by line from the source (JS floats read as reals). -/
noncomputable def drawSide (startX startY endX endY : ℝ) (shape : Shape) : List PathCmd :=
  match shape with
  | Shape.FLAT => [PathCmd.lineTo endX endY]
  | Shape.jig s =>
    let dx := endX - startX
    let dy := endY - startY
    let normX := dy
    let normY := -dx
    let normLen := Real.sqrt (normX * normX + normY * normY)
    let unitNormX := normX / normLen
    let unitNormY := normY / normLen
    let knobSize := normLen * KNOB_RATIO
    let curveOffset := knobSize * (if s = JigsawSide.KNOB then 1 else -1)
    let knobBaseRatio : ℝ := 0.6
    let p1Ratio := (1 - knobBaseRatio) / 2
    let p2Ratio := 1 - p1Ratio
    let p1x := startX + dx * p1Ratio
    let p1y := startY + dy * p1Ratio
    let p2x := startX + dx * p2Ratio
    let p2y := startY + dy * p2Ratio
    let cp1x := p1x + unitNormX * curveOffset
    let cp1y := p1y + unitNormY * curveOffset
    let cp2x := p2x + unitNormX * curveOffset
    let cp2y := p2y + unitNormY * curveOffset
    [PathCmd.lineTo p1x p1y,
     PathCmd.bezierCurveTo cp1x cp1y cp2x cp2y p2x p2y,
     PathCmd.lineTo endX endY]

/-- The side path as the specification words it: straight to the point 20%
of the way along the side, one cubic curve to the 80% point, straight to
the end; both control points are the 20%/80% points offset by the side
vector rotated 90 degrees scaled by KNOB_RATIO (magnitude KNOB_RATIO
times the side length along the unit outward normal), sign flipped for
SOCKET. Written from the spec text, to be compared with `drawSide`. -/
noncomputable def drawSideSpec (startX startY endX endY : ℝ) (s : JigsawSide) : List PathCmd :=
  let dx := endX - startX
  let dy := endY - startY
  let sign : ℝ := if s = JigsawSide.KNOB then 1 else -1
  let offX := dy * KNOB_RATIO * sign
  let offY := -dx * KNOB_RATIO * sign
  let p1x := startX + 0.2 * dx
  let p1y := startY + 0.2 * dy
  let p2x := startX + 0.8 * dx
  let p2y := startY + 0.8 * dy
  [PathCmd.lineTo p1x p1y,
   PathCmd.bezierCurveTo (p1x + offX) (p1y + offY) (p2x + offX) (p2y + offY) p2x p2y,
   PathCmd.lineTo endX endY]

/-- The closed outline of a piece as built in `createPieceCanvas`
(PuzzleBoard.tsx lines 106-112): start at the top-left corner and walk the
four sides in order top, right, bottom, left. -/
noncomputable def piecePath (pieceWidth pieceHeight : ℝ) (shape : PieceShape) : List PathCmd :=
  [PathCmd.moveTo 0 0]
    ++ drawSide 0 0 pieceWidth 0 shape.top
    ++ drawSide pieceWidth 0 pieceWidth pieceHeight shape.right
    ++ drawSide pieceWidth pieceHeight 0 pieceHeight shape.bottom
    ++ drawSide 0 pieceHeight 0 0 shape.left
    ++ [PathCmd.closePath]

/-- The geometric outcome of `createPieceCanvas` (PuzzleBoard.tsx lines
86-145): the allocated canvas dimensions, the translation applied before
drawing, and the outline path. Image compositing and PNG encoding are not
modelled (their failure mode is carried by the rasterizer oracle of
`createJigsawPieces`). -/
structure PieceCanvas where
  width : ℝ
  height : ℝ
  translateX : ℝ
  translateY : ℝ
  path : List PathCmd

/-- The canvas sizing and setup of `createPieceCanvas`:
`canvasPaddingX = pieceWidth * KNOB_RATIO`, canvas width
`pieceWidth + 2 * canvasPaddingX` (and symmetrically for the height), the
origin translated by the padding, then the outline path drawn. -/
noncomputable def createPieceCanvas (pieceWidth pieceHeight : ℝ) (shape : PieceShape) :
    PieceCanvas :=
  let canvasPaddingX := pieceWidth * KNOB_RATIO
  let canvasPaddingY := pieceHeight * KNOB_RATIO
  { width := pieceWidth + 2 * canvasPaddingX
    height := pieceHeight + 2 * canvasPaddingY
    translateX := canvasPaddingX
    translateY := canvasPaddingY
    path := piecePath pieceWidth pieceHeight shape }


/-! ### Concrete instances used by the witnesses -/

/-- A concrete joint assignment: every internal joint is a KNOB. -/
def jointsK : ℕ → ℕ → JigsawSide := fun _ _ => JigsawSide.KNOB

/-- A concrete piece encoder for an always-succeeding rasterizer. -/
def encConst : ℕ → ℕ → ℕ → ℕ → PieceShape → String := fun _ _ _ _ _ => "piece"

/-- A rasterizer oracle that always succeeds. -/
def rasAllOk : ℕ → ℕ → ℕ → ℕ → PieceShape → Except String String :=
  fun sx sy pw ph sh => Except.ok (encConst sx sy pw ph sh)

/-- A rasterizer oracle that always fails, modelling
`canvas.getContext('2d')` returning null. -/
def rasFail : ℕ → ℕ → ℕ → ℕ → PieceShape → Except String String :=
  fun _ _ _ _ _ => Except.error "Could not get canvas context."

/-! ### Helper lemmas -/

theorem invert_invert (s : JigsawSide) : invert (invert s) = s := by
  cases s <;> rfl

/-- C1: For every grid size N ≥ 2 and every internal edge, the two adjacent
cells record exactly inverse shapes for their shared edge: a cell's right
side is the logical inverse (KNOB ↔ SOCKET) of its right neighbor's left
side, and a cell's bottom side is the logical inverse of the top side of
the cell below; in particular neither side is FLAT and the two sides are
never equal, so no KNOB abuts a KNOB and no SOCKET abuts a SOCKET. -/
theorem internal_edges_inverse (N : ℕ) (hN : 2 ≤ N)
    (hJ vJ : ℕ → ℕ → JigsawSide) (y x : ℕ) (hy : y < N) (hx : x < N) :
    (x + 1 < N →
      (pieceShape N hJ vJ y x).right = inverseShape ((pieceShape N hJ vJ y (x + 1)).left) ∧
      (pieceShape N hJ vJ y x).right ≠ Shape.FLAT ∧
      (pieceShape N hJ vJ y x).right ≠ (pieceShape N hJ vJ y (x + 1)).left) ∧
    (y + 1 < N →
      (pieceShape N hJ vJ y x).bottom = inverseShape ((pieceShape N hJ vJ (y + 1) x).top) ∧
      (pieceShape N hJ vJ y x).bottom ≠ Shape.FLAT ∧
      (pieceShape N hJ vJ y x).bottom ≠ (pieceShape N hJ vJ (y + 1) x).top) := by
  constructor
  · intro hx1
    have hxne : ¬(x = N - 1) := by omega
    have hx1ne : ¬(x + 1 = 0) := by omega
    simp only [pieceShape, if_neg hxne, if_neg hx1ne, Nat.add_sub_cancel, inverseShape,
      invert_invert]
    cases hJ y x <;> simp [invert]
  · intro hy1
    have hyne : ¬(y = N - 1) := by omega
    have hy1ne : ¬(y + 1 = 0) := by omega
    simp only [pieceShape, if_neg hyne, if_neg hy1ne, Nat.add_sub_cancel, inverseShape,
      invert_invert]
    cases vJ y x <;> simp [invert]

/-- Witness for `internal_edges_inverse` at N = 2, cell (0, 0). -/
theorem internal_edges_inverse_witness :
    2 ≤ 2 ∧ (0 : ℕ) < 2 ∧ (0 : ℕ) < 2 ∧
    ((0 + 1 < 2 →
      (pieceShape 2 jointsK jointsK 0 0).right =
        inverseShape ((pieceShape 2 jointsK jointsK 0 (0 + 1)).left) ∧
      (pieceShape 2 jointsK jointsK 0 0).right ≠ Shape.FLAT ∧
      (pieceShape 2 jointsK jointsK 0 0).right ≠ (pieceShape 2 jointsK jointsK 0 (0 + 1)).left) ∧
    (0 + 1 < 2 →
      (pieceShape 2 jointsK jointsK 0 0).bottom =
        inverseShape ((pieceShape 2 jointsK jointsK (0 + 1) 0).top) ∧
      (pieceShape 2 jointsK jointsK 0 0).bottom ≠ Shape.FLAT ∧
      (pieceShape 2 jointsK jointsK 0 0).bottom ≠ (pieceShape 2 jointsK jointsK (0 + 1) 0).top)) :=
  ⟨by decide, by decide, by decide,
    internal_edges_inverse 2 (by decide) jointsK jointsK 0 0 (by decide) (by decide)⟩

/-- C3: a side of a cell's shape descriptor is FLAT if and only if that
side faces the grid border; every non-border-facing side is KNOB or
SOCKET, never FLAT. -/
theorem flat_iff_border (N : ℕ) (hN : 2 ≤ N) (hJ vJ : ℕ → ℕ → JigsawSide)
    (y x : ℕ) (hy : y < N) (hx : x < N) :
    ((pieceShape N hJ vJ y x).top = Shape.FLAT ↔ y = 0) ∧
    ((pieceShape N hJ vJ y x).bottom = Shape.FLAT ↔ y = N - 1) ∧
    ((pieceShape N hJ vJ y x).left = Shape.FLAT ↔ x = 0) ∧
    ((pieceShape N hJ vJ y x).right = Shape.FLAT ↔ x = N - 1) := by
  refine ⟨?_, ?_, ?_, ?_⟩
  · by_cases h : y = 0 <;> simp [pieceShape, h]
  · by_cases h : y = N - 1 <;> simp [pieceShape, h]
  · by_cases h : x = 0 <;> simp [pieceShape, h]
  · by_cases h : x = N - 1 <;> simp [pieceShape, h]

/-- Witness for `flat_iff_border` at N = 2, cell (0, 1). -/
theorem flat_iff_border_witness :
    2 ≤ 2 ∧ (0 : ℕ) < 2 ∧ (1 : ℕ) < 2 ∧
    (((pieceShape 2 jointsK jointsK 0 1).top = Shape.FLAT ↔ (0 : ℕ) = 0) ∧
    ((pieceShape 2 jointsK jointsK 0 1).bottom = Shape.FLAT ↔ (0 : ℕ) = 2 - 1) ∧
    ((pieceShape 2 jointsK jointsK 0 1).left = Shape.FLAT ↔ (1 : ℕ) = 0) ∧
    ((pieceShape 2 jointsK jointsK 0 1).right = Shape.FLAT ↔ (1 : ℕ) = 2 - 1)) :=
  ⟨by decide, by decide, by decide,
    flat_iff_border 2 (by decide) jointsK jointsK 0 1 (by decide) (by decide)⟩

theorem sum_ite_lt (r : ℕ) : ∀ n, (∑ i ∈ Finset.range n, (if i < r then 1 else 0)) = min r n := by
  intro n
  induction n with
  | zero => simp
  | succ n ih => rw [Finset.sum_range_succ, ih]; split <;> omega

/-- The integer partition is exact: the base quotient plus the extra pixel
for the first `D % N` indices sums to `D` over `N` indices. -/
theorem partition_sum (D N : ℕ) (hN : 1 ≤ N) :
    (∑ i ∈ Finset.range N, (D / N + if i < D % N then 1 else 0)) = D := by
  rw [Finset.sum_add_distrib, Finset.sum_const, Finset.card_range, smul_eq_mul, sum_ite_lt]
  have hmod : D % N < N := Nat.mod_lt D (by omega)
  have hdm := Nat.div_add_mod D N
  omega

theorem pieceW_sum (W N : ℕ) (hN : 1 ≤ N) : (∑ x ∈ Finset.range N, pieceW W N x) = W := by
  simpa only [pieceW] using partition_sum W N hN

theorem pieceH_sum (H N : ℕ) (hN : 1 ≤ N) : (∑ y ∈ Finset.range N, pieceH H N y) = H := by
  simpa only [pieceH] using partition_sum H N hN

/-- C2: column `x` gets width `floor(W/N)+1` if `x < W mod N` and
`floor(W/N)` otherwise (and symmetrically for row heights), and the `N`
column widths sum exactly to `W` while the `N` row heights sum exactly to
`H`. -/
theorem partition_widths_heights_exact (W H N : ℕ) (hN : 2 ≤ N) :
    (∀ x, pieceW W N x = if x < W % N then W / N + 1 else W / N) ∧
    (∀ y, pieceH H N y = if y < H % N then H / N + 1 else H / N) ∧
    (∑ x ∈ Finset.range N, pieceW W N x) = W ∧
    (∑ y ∈ Finset.range N, pieceH H N y) = H := by
  refine ⟨fun x => ?_, fun y => ?_, pieceW_sum W N (by omega), pieceH_sum H N (by omega)⟩
  · by_cases h : x < W % N <;> simp [pieceW, h]
  · by_cases h : y < H % N <;> simp [pieceH, h]

/-- Witness for `partition_widths_heights_exact` at W = 7, H = 5, N = 3. -/
theorem partition_widths_heights_exact_witness :
    2 ≤ 3 ∧
    ((∀ x, pieceW 7 3 x = if x < 7 % 3 then 7 / 3 + 1 else 7 / 3) ∧
    (∀ y, pieceH 5 3 y = if y < 5 % 3 then 5 / 3 + 1 else 5 / 3) ∧
    (∑ x ∈ Finset.range 3, pieceW 7 3 x) = 7 ∧
    (∑ y ∈ Finset.range 3, pieceH 5 3 y) = 5) :=
  ⟨by decide, partition_widths_heights_exact 7 5 3 (by decide)⟩

/-- C4: for a piece count that is not a perfect square, `createJigsawPieces`
rejects with the validation error, for every rasterizer oracle (so the
failure does not depend on — and precedes — any rasterization), and never
resolves with a piece list. -/
theorem non_square_piece_count_rejected (pieceCount : ℕ)
    (h : Nat.sqrt pieceCount * Nat.sqrt pieceCount ≠ pieceCount) :
    ∀ ras W H hJ vJ,
      createJigsawPieces ras W H pieceCount hJ vJ =
        Except.error "Piece count must be a perfect square." ∧
      ∀ l, createJigsawPieces ras W H pieceCount hJ vJ ≠ Except.ok l := by
  intro ras W H hJ vJ
  have hmain : createJigsawPieces ras W H pieceCount hJ vJ =
      Except.error "Piece count must be a perfect square." := by
    simp only [createJigsawPieces, if_neg h]
  exact ⟨hmain, fun l hcontra => by rw [hmain] at hcontra; exact Except.noConfusion hcontra⟩

/-- Witness for `non_square_piece_count_rejected` at piece count 10. -/
theorem non_square_piece_count_rejected_witness :
    (Nat.sqrt 10 * Nat.sqrt 10 ≠ 10) ∧
    (∀ ras W H hJ vJ,
      createJigsawPieces ras W H 10 hJ vJ =
        Except.error "Piece count must be a perfect square." ∧
      ∀ l, createJigsawPieces ras W H 10 hJ vJ ≠ Except.ok l) :=
  ⟨by norm_num, non_square_piece_count_rejected 10 (by norm_num)⟩

/-- C9: the perfect-square validation accepts piece counts 0 and 1:
generation with piece count 0 yields an empty piece list, and with piece
count 1 yields exactly one piece whose four sides are all FLAT (provided
its rasterization succeeds). -/
theorem degenerate_piece_counts_accepted
    (ras : ℕ → ℕ → ℕ → ℕ → PieceShape → Except String String) (W H : ℕ)
    (hJ vJ : ℕ → ℕ → JigsawSide) :
    createJigsawPieces ras W H 0 hJ vJ = Except.ok [] ∧
    pieceShape 1 hJ vJ 0 0 = ⟨Shape.FLAT, Shape.FLAT, Shape.FLAT, Shape.FLAT⟩ ∧
    ∀ s, ras 0 0 (pieceW W 1 0) (pieceH H 1 0) (pieceShape 1 hJ vJ 0 0) = Except.ok s →
      createJigsawPieces ras W H 1 hJ vJ = Except.ok [s] := by
  refine ⟨?_, ?_, ?_⟩
  · simp [createJigsawPieces, Nat.sqrt_zero, cells, mapMExcept]
  · rfl
  · intro s hs
    have h1 : Nat.sqrt 1 = 1 := Nat.sqrt_one
    have hcells : cells 1 = [(0, 0)] := by decide
    simp only [createJigsawPieces, h1, hcells, one_mul, if_pos rfl, mapMExcept, rasterizeCell,
      currentSourceX, currentSourceY]
    rw [hs]
    simp

/-- Witness for `degenerate_piece_counts_accepted`: a concrete
always-succeeding rasterizer, piece counts 0 and 1. -/
theorem degenerate_piece_counts_accepted_witness :
    createJigsawPieces rasAllOk 8 8 0 jointsK jointsK = Except.ok [] ∧
    createJigsawPieces rasAllOk 8 8 1 jointsK jointsK = Except.ok ["piece"] :=
  ⟨(degenerate_piece_counts_accepted rasAllOk 8 8 jointsK jointsK).1,
   (degenerate_piece_counts_accepted rasAllOk 8 8 jointsK jointsK).2.2 "piece" rfl⟩

theorem cells_length (N : ℕ) : (cells N).length = N * N := by
  simp [cells, Function.comp_def, List.map_const']

theorem mem_cells (N : ℕ) (c : ℕ × ℕ) : c ∈ cells N ↔ c.1 < N ∧ c.2 < N := by
  cases c with
  | mk y x => simp [cells]

theorem mapMExcept_ok_spec (f : α → Except String String) :
    ∀ (l : List α) (bs : List String), mapMExcept f l = Except.ok bs →
      bs.length = l.length ∧ ∀ a ∈ l, ∃ b, f a = Except.ok b := by
  intro l
  induction l with
  | nil =>
    intro bs h
    simp only [mapMExcept, Except.ok.injEq] at h
    subst h
    simp
  | cons a as ih =>
    intro bs h
    simp only [mapMExcept] at h
    cases hfa : f a with
    | error e => rw [hfa] at h; simp at h
    | ok b =>
      rw [hfa] at h
      cases hrest : mapMExcept f as with
      | error e => rw [hrest] at h; simp at h
      | ok bs2 =>
        rw [hrest] at h
        simp only [Except.ok.injEq] at h
        subst h
        obtain ⟨hlen, hall⟩ := ih bs2 hrest
        refine ⟨by simp [hlen], ?_⟩
        intro a2 ha2
        rcases List.mem_cons.mp ha2 with h1 | h1
        · subst h1; exact ⟨b, hfa⟩
        · exact hall a2 h1

theorem mapMExcept_error_mem (f : α → Except String String) :
    ∀ (l : List α) (e : String), mapMExcept f l = Except.error e →
      ∃ a ∈ l, f a = Except.error e := by
  intro l
  induction l with
  | nil => intro e h; simp [mapMExcept] at h
  | cons a as ih =>
    intro e h
    simp only [mapMExcept] at h
    cases hfa : f a with
    | error e2 =>
      rw [hfa] at h
      simp only [Except.error.injEq] at h
      subst h
      exact ⟨a, List.mem_cons_self a as, hfa⟩
    | ok b =>
      rw [hfa] at h
      cases hrest : mapMExcept f as with
      | error e2 =>
        rw [hrest] at h
        simp only [Except.error.injEq] at h
        subst h
        obtain ⟨a2, ha2, hfa2⟩ := ih _ hrest
        exact ⟨a2, List.mem_cons_of_mem a ha2, hfa2⟩
      | ok bs => rw [hrest] at h; simp at h

theorem mapMExcept_error_exists (f : α → Except String String) :
    ∀ l : List α, (∃ a ∈ l, ∃ e, f a = Except.error e) →
      ∃ e2, mapMExcept f l = Except.error e2 := by
  intro l
  induction l with
  | nil => rintro ⟨a, ha, _⟩; simp at ha
  | cons a as ih =>
    rintro ⟨a2, ha2, e, hfa2⟩
    cases hfa : f a with
    | error e3 => exact ⟨e3, by simp only [mapMExcept]; rw [hfa]⟩
    | ok b =>
      rcases List.mem_cons.mp ha2 with h1 | h1
      · subst h1; rw [hfa] at hfa2; exact absurd hfa2 (by simp)
      · obtain ⟨e2, hrest⟩ := ih ⟨a2, h1, e, hfa2⟩
        exact ⟨e2, by simp only [mapMExcept]; rw [hfa, hrest]⟩

theorem mapMExcept_ok_of_all (f : α → Except String String) (g : α → String) :
    ∀ l : List α, (∀ a ∈ l, f a = Except.ok (g a)) →
      mapMExcept f l = Except.ok (l.map g) := by
  intro l
  induction l with
  | nil => intro _; rfl
  | cons a as ih =>
    intro h
    have hfa : f a = Except.ok (g a) := h a (List.mem_cons_self a as)
    have hrest := ih (fun a2 ha2 => h a2 (List.mem_cons_of_mem a ha2))
    simp only [mapMExcept, hfa, hrest, List.map_cons]

/-- C6: if rasterizing any single piece fails, the whole batch fails:
`createJigsawPieces` (for a valid piece count N·N) either resolves with a
complete list of N·N piece images, each cell's rasterization having
succeeded, or rejects with the error of a failing piece and never resolves
with a piece list. -/
theorem batch_fail_fast (ras : ℕ → ℕ → ℕ → ℕ → PieceShape → Except String String)
    (W H gridSize : ℕ) (hJ vJ : ℕ → ℕ → JigsawSide) :
    (∀ l, createJigsawPieces ras W H (gridSize * gridSize) hJ vJ = Except.ok l →
      l.length = gridSize * gridSize ∧
      ∀ c ∈ cells gridSize, ∃ s, rasterizeCell ras W H gridSize hJ vJ c = Except.ok s) ∧
    ((∃ c ∈ cells gridSize, ∃ e, rasterizeCell ras W H gridSize hJ vJ c = Except.error e) →
      ∃ e2, createJigsawPieces ras W H (gridSize * gridSize) hJ vJ = Except.error e2 ∧
        ∃ c ∈ cells gridSize, rasterizeCell ras W H gridSize hJ vJ c = Except.error e2) := by
  have hsqrt : Nat.sqrt (gridSize * gridSize) = gridSize := Nat.sqrt_eq gridSize
  have hdef : createJigsawPieces ras W H (gridSize * gridSize) hJ vJ =
      mapMExcept (rasterizeCell ras W H gridSize hJ vJ) (cells gridSize) := by
    simp only [createJigsawPieces, hsqrt, if_pos rfl, if_true, eq_self_iff_true]
  constructor
  · intro l hl
    rw [hdef] at hl
    obtain ⟨hlen, hall⟩ := mapMExcept_ok_spec _ _ _ hl
    exact ⟨by rw [hlen, cells_length], hall⟩
  · intro hex
    obtain ⟨e2, herr⟩ := mapMExcept_error_exists _ _ hex
    exact ⟨e2, by rw [hdef]; exact herr, mapMExcept_error_mem _ _ _ herr⟩

/-- Witness for `batch_fail_fast`: a rasterizer that cannot obtain a 2d
context fails the whole 2×2 batch with that error. -/
theorem batch_fail_fast_witness :
    ∃ e2, createJigsawPieces rasFail 10 10 (2 * 2) jointsK jointsK = Except.error e2 ∧
      ∃ c ∈ cells 2, rasterizeCell rasFail 10 10 2 jointsK jointsK c = Except.error e2 :=
  (batch_fail_fast rasFail 10 10 2 jointsK jointsK).2
    ⟨(0, 0), by decide, "Could not get canvas context.", rfl⟩

/-- C7: for an 800×800 image and piece count 16, the grid is 4×4; with a
rasterizer that succeeds on every piece, generation resolves with the 16
pieces in row-major cell order; every base rectangle is exactly 200×200;
cell number 5 is at row 1, col 1; and piece 5's top and left sides are the
logical inverses of piece 1's bottom side and piece 4's right side. -/
theorem scenario_800x800_16 (hJ vJ : ℕ → ℕ → JigsawSide)
    (ras : ℕ → ℕ → ℕ → ℕ → PieceShape → Except String String)
    (enc : ℕ → ℕ → ℕ → ℕ → PieceShape → String)
    (h : ∀ sx sy pw ph sh, ras sx sy pw ph sh = Except.ok (enc sx sy pw ph sh)) :
    Nat.sqrt 16 = 4 ∧
    createJigsawPieces ras 800 800 16 hJ vJ =
      Except.ok ((cells 4).map (fun c =>
        enc (currentSourceX 800 4 c.2) (currentSourceY 800 4 c.1)
          (pieceW 800 4 c.2) (pieceH 800 4 c.1) (pieceShape 4 hJ vJ c.1 c.2))) ∧
    (cells 4).length = 16 ∧
    (cells 4)[5]? = some (1, 1) ∧
    (∀ x, x < 4 → pieceW 800 4 x = 200) ∧
    (∀ y, y < 4 → pieceH 800 4 y = 200) ∧
    (pieceShape 4 hJ vJ 1 1).top = inverseShape ((pieceShape 4 hJ vJ 0 1).bottom) ∧
    (pieceShape 4 hJ vJ 1 1).left = inverseShape ((pieceShape 4 hJ vJ 1 0).right) := by
  have h16 : Nat.sqrt 16 = 4 := by norm_num
  refine ⟨h16, ?_, by decide, by decide, ?_, ?_, ?_, ?_⟩
  · have hdef : createJigsawPieces ras 800 800 16 hJ vJ =
        mapMExcept (rasterizeCell ras 800 800 4 hJ vJ) (cells 4) := by
      simp only [createJigsawPieces, h16]
      norm_num
    rw [hdef]
    exact mapMExcept_ok_of_all _ _ (cells 4)
      (fun c _ => by simpa [rasterizeCell] using h _ _ _ _ _)
  · intro x hx; simp [pieceW]
  · intro y hy; simp [pieceH]
  · simp [pieceShape, inverseShape]
  · simp [pieceShape, inverseShape]

/-- Witness for `scenario_800x800_16` with a concrete always-succeeding
rasterizer and all-KNOB joints. -/
theorem scenario_800x800_16_witness :
    (∀ sx sy pw ph sh, rasAllOk sx sy pw ph sh = Except.ok (encConst sx sy pw ph sh)) ∧
    (Nat.sqrt 16 = 4 ∧
    createJigsawPieces rasAllOk 800 800 16 jointsK jointsK =
      Except.ok ((cells 4).map (fun c =>
        encConst (currentSourceX 800 4 c.2) (currentSourceY 800 4 c.1)
          (pieceW 800 4 c.2) (pieceH 800 4 c.1) (pieceShape 4 jointsK jointsK c.1 c.2))) ∧
    (cells 4).length = 16 ∧
    (cells 4)[5]? = some (1, 1) ∧
    (∀ x, x < 4 → pieceW 800 4 x = 200) ∧
    (∀ y, y < 4 → pieceH 800 4 y = 200) ∧
    (pieceShape 4 jointsK jointsK 1 1).top =
      inverseShape ((pieceShape 4 jointsK jointsK 0 1).bottom) ∧
    (pieceShape 4 jointsK jointsK 1 1).left =
      inverseShape ((pieceShape 4 jointsK jointsK 1 0).right)) :=
  ⟨fun _ _ _ _ _ => rfl,
   scenario_800x800_16 jointsK jointsK rasAllOk encConst (fun _ _ _ _ _ => rfl)⟩

theorem currentSourceX_succ (W N x : ℕ) :
    currentSourceX W N (x + 1) = currentSourceX W N x + pieceW W N x := rfl

theorem currentSourceY_eq_currentSourceX (H N : ℕ) :
    ∀ y, currentSourceY H N y = currentSourceX H N y := by
  intro y
  induction y with
  | zero => rfl
  | succ y ih =>
    show currentSourceY H N y + pieceH H N y = currentSourceX H N y + pieceW H N y
    rw [ih]
    rfl

theorem currentSourceX_eq_sum (W N : ℕ) :
    ∀ x, currentSourceX W N x = ∑ i ∈ Finset.range x, pieceW W N i := by
  intro x
  induction x with
  | zero => simp [currentSourceX]
  | succ x ih => rw [currentSourceX_succ, Finset.sum_range_succ, ih]

theorem currentSourceX_mono (W N : ℕ) : Monotone (currentSourceX W N) := by
  apply monotone_nat_of_le_succ
  intro x
  rw [currentSourceX_succ]
  omega

theorem currentSourceX_last (W N : ℕ) (hN : 1 ≤ N) : currentSourceX W N N = W := by
  rw [currentSourceX_eq_sum]
  exact pieceW_sum W N hN

/-- Every pixel coordinate `p < currentSourceX W N n` falls into exactly
one of the first `n` column intervals. -/
theorem column_cover_unique (W N p : ℕ) :
    ∀ n, p < currentSourceX W N n →
      ∃! x, x < n ∧ currentSourceX W N x ≤ p ∧
        p < currentSourceX W N x + pieceW W N x := by
  intro n
  induction n with
  | zero => intro h; simp [currentSourceX] at h
  | succ n ih =>
    intro h
    rcases lt_or_ge p (currentSourceX W N n) with hlt | hge
    · obtain ⟨x, ⟨hx, h1, h2⟩, huniq⟩ := ih hlt
      refine ⟨x, ⟨by omega, h1, h2⟩, ?_⟩
      rintro x2 ⟨hx2, h12, h22⟩
      by_cases hxn : x2 = n
      · subst hxn; omega
      · exact huniq x2 ⟨by omega, h12, h22⟩
    · have hsucc := currentSourceX_succ W N n
      refine ⟨n, ⟨Nat.lt_succ_self n, hge, by omega⟩, ?_⟩
      rintro x2 ⟨hx2, h12, h22⟩
      by_cases hxn : x2 = n
      · exact hxn
      · exfalso
        have hle : x2 + 1 ≤ n := by omega
        have hmono := currentSourceX_mono W N hle
        have hstep := currentSourceX_succ W N x2
        omega

/-- C10: when the image width W is smaller than the grid size N, the
partition does not fail: the first W columns get width 1, the remaining
columns width 0 (base floor(W/N) = 0), the widths still sum to W, the
per-cell source origins are the exact prefix sums of the preceding
widths, and for all non-negative W, H the N·N source rectangles are
pairwise disjoint and exactly cover the W×H image (every pixel lies in
exactly one cell rectangle). -/
theorem narrow_image_partition (W H N : ℕ) (hN : 1 ≤ N) :
    (W < N → ∀ x, pieceW W N x = if x < W then 1 else 0) ∧
    (H < N → ∀ y, pieceH H N y = if y < H then 1 else 0) ∧
    currentSourceX W N N = W ∧
    currentSourceY H N N = H ∧
    (∀ x, currentSourceX W N x = ∑ i ∈ Finset.range x, pieceW W N i) ∧
    (∀ y, currentSourceY H N y = ∑ i ∈ Finset.range y, pieceH H N i) ∧
    (∀ px py, px < W → py < H →
      ∃! c : ℕ × ℕ, c.1 < N ∧ c.2 < N ∧
        currentSourceX W N c.2 ≤ px ∧ px < currentSourceX W N c.2 + pieceW W N c.2 ∧
        currentSourceY H N c.1 ≤ py ∧ py < currentSourceY H N c.1 + pieceH H N c.1) := by
  have hHX := currentSourceY_eq_currentSourceX H N
  have hHW : ∀ i, pieceH H N i = pieceW H N i := fun _ => rfl
  refine ⟨?_, ?_, currentSourceX_last W N hN, ?_, currentSourceX_eq_sum W N, ?_, ?_⟩
  · intro hWN x
    have hdiv : W / N = 0 := Nat.div_eq_of_lt hWN
    have hmod : W % N = W := Nat.mod_eq_of_lt hWN
    simp [pieceW, hdiv, hmod]
  · intro hHN y
    have hdiv : H / N = 0 := Nat.div_eq_of_lt hHN
    have hmod : H % N = H := Nat.mod_eq_of_lt hHN
    simp [pieceH, hdiv, hmod]
  · rw [hHX]; exact currentSourceX_last H N hN
  · intro y
    rw [hHX, currentSourceX_eq_sum]
    exact Finset.sum_congr rfl (fun i _ => (hHW i).symm)
  · intro px py hpx hpy
    have hxcov := column_cover_unique W N px N (by rw [currentSourceX_last W N hN]; exact hpx)
    have hycov := column_cover_unique H N py N (by rw [currentSourceX_last H N hN]; exact hpy)
    obtain ⟨x0, ⟨hx0, hx1, hx2⟩, hxu⟩ := hxcov
    obtain ⟨y0, ⟨hy0, hy1, hy2⟩, hyu⟩ := hycov
    refine ⟨(y0, x0), ⟨hy0, hx0, hx1, hx2, ?_, ?_⟩, ?_⟩
    · show currentSourceY H N y0 ≤ py
      rw [hHX y0]; exact hy1
    · show py < currentSourceY H N y0 + pieceH H N y0
      rw [hHX y0, hHW y0]; exact hy2
    · rintro ⟨y2, x2⟩ ⟨h1, h2, h3, h4, h5, h6⟩
      have hx2eq : x2 = x0 := hxu x2 ⟨h2, h3, h4⟩
      have hy2eq : y2 = y0 := by
        apply hyu y2
        refine ⟨h1, ?_, ?_⟩
        · rw [← hHX y2]; exact h5
        · rw [← hHW y2, ← hHX y2]; exact h6
      simp [hx2eq, hy2eq]

/-- Witness for `narrow_image_partition` at W = 2, H = 3, N = 4 (image
narrower and shorter than the grid). -/
theorem narrow_image_partition_witness :
    1 ≤ 4 ∧
    ((2 < 4 → ∀ x, pieceW 2 4 x = if x < 2 then 1 else 0) ∧
    (3 < 4 → ∀ y, pieceH 3 4 y = if y < 3 then 1 else 0) ∧
    currentSourceX 2 4 4 = 2 ∧
    currentSourceY 3 4 4 = 3 ∧
    (∀ x, currentSourceX 2 4 x = ∑ i ∈ Finset.range x, pieceW 2 4 i) ∧
    (∀ y, currentSourceY 3 4 y = ∑ i ∈ Finset.range y, pieceH 3 4 i) ∧
    (∀ px py, px < 2 → py < 3 →
      ∃! c : ℕ × ℕ, c.1 < 4 ∧ c.2 < 4 ∧
        currentSourceX 2 4 c.2 ≤ px ∧ px < currentSourceX 2 4 c.2 + pieceW 2 4 c.2 ∧
        currentSourceY 3 4 c.1 ≤ py ∧ py < currentSourceY 3 4 c.1 + pieceH 3 4 c.1)) :=
  ⟨by decide, narrow_image_partition 2 3 4 (by decide)⟩


/-- C5: for a non-FLAT side from S to E, `drawSide` emits a straight
segment to the 20% point, one cubic Bezier to the 80% point, then a
straight segment to E, the control points being the 20%/80% points offset
by the side vector rotated 90 degrees scaled by KNOB_RATIO = 0.2 (sign
negated for SOCKET), exactly as `drawSideSpec` words it; the same
`drawSide` is applied to all four sides, walked top, right, bottom, left
from the top-left corner. -/
theorem drawSide_matches_spec (startX startY endX endY : ℝ) (s : JigsawSide)
    (h : ¬(endX = startX ∧ endY = startY)) :
    drawSide startX startY endX endY (Shape.jig s) = drawSideSpec startX startY endX endY s ∧
    KNOB_RATIO = 0.2 ∧
    (∀ pw ph shape, piecePath pw ph shape =
      [PathCmd.moveTo 0 0] ++ drawSide 0 0 pw 0 shape.top
        ++ drawSide pw 0 pw ph shape.right
        ++ drawSide pw ph 0 ph shape.bottom
        ++ drawSide 0 ph 0 0 shape.left ++ [PathCmd.closePath]) := by
  refine ⟨?_, rfl, fun _ _ _ => rfl⟩
  have hd : endX - startX ≠ 0 ∨ endY - startY ≠ 0 := by
    by_contra hc
    push_neg at hc
    exact h ⟨by linarith [sub_eq_zero.mp hc.1], by linarith [sub_eq_zero.mp hc.2]⟩
  have hpos : 0 < (endY - startY) * (endY - startY) + -(endX - startX) * -(endX - startX) := by
    rcases hd with h1 | h1
    · have h2 : 0 < (endX - startX) * (endX - startX) := mul_self_pos.mpr h1
      nlinarith [mul_self_nonneg (endY - startY)]
    · have h2 : 0 < (endY - startY) * (endY - startY) := mul_self_pos.mpr h1
      nlinarith [mul_self_nonneg (endX - startX)]
  have hLne : Real.sqrt ((endY - startY) * (endY - startY) +
      -(endX - startX) * -(endX - startX)) ≠ 0 :=
    ne_of_gt (Real.sqrt_pos.mpr hpos)
  cases s with
  | KNOB =>
    simp only [drawSide, drawSideSpec, reduceIte]
    set L := Real.sqrt ((endY - startY) * (endY - startY) +
      -(endX - startX) * -(endX - startX)) with hLdef
    simp only [List.cons.injEq, PathCmd.lineTo.injEq, PathCmd.bezierCurveTo.injEq, and_true]
    and_intros <;> field_simp [hLne] <;> ring
  | SOCKET =>
    simp only [drawSide, drawSideSpec,
      if_neg (show ¬(JigsawSide.SOCKET = JigsawSide.KNOB) from by decide)]
    set L := Real.sqrt ((endY - startY) * (endY - startY) +
      -(endX - startX) * -(endX - startX)) with hLdef
    simp only [List.cons.injEq, PathCmd.lineTo.injEq, PathCmd.bezierCurveTo.injEq, and_true]
    and_intros <;> field_simp [hLne] <;> ring

/-- Witness for `drawSide_matches_spec` on the concrete side from (0, 0)
to (2, 0) with a KNOB. -/
theorem drawSide_matches_spec_witness :
    (¬((2 : ℝ) = 0 ∧ (0 : ℝ) = 0)) ∧
    (drawSide 0 0 2 0 (Shape.jig JigsawSide.KNOB) = drawSideSpec 0 0 2 0 JigsawSide.KNOB ∧
    KNOB_RATIO = 0.2 ∧
    (∀ pw ph shape, piecePath pw ph shape =
      [PathCmd.moveTo 0 0] ++ drawSide 0 0 pw 0 shape.top
        ++ drawSide pw 0 pw ph shape.right
        ++ drawSide pw ph 0 ph shape.bottom
        ++ drawSide 0 ph 0 0 shape.left ++ [PathCmd.closePath])) :=
  ⟨by norm_num, drawSide_matches_spec 0 0 2 0 JigsawSide.KNOB (by norm_num)⟩

/-- C8: the rasterizer allocates a drawing surface of width
pw·(1+2·KNOB_RATIO) and height ph·(1+2·KNOB_RATIO) with KNOB_RATIO = 0.2
(a margin of KNOB_RATIO·pw left and right and KNOB_RATIO·ph top and
bottom), and draws the outline path translated by exactly that margin. -/
theorem canvas_padding_sizing (pw ph : ℝ) (shape : PieceShape) :
    (createPieceCanvas pw ph shape).width = pw * (1 + 2 * KNOB_RATIO) ∧
    (createPieceCanvas pw ph shape).height = ph * (1 + 2 * KNOB_RATIO) ∧
    (createPieceCanvas pw ph shape).translateX = KNOB_RATIO * pw ∧
    (createPieceCanvas pw ph shape).translateY = KNOB_RATIO * ph ∧
    (createPieceCanvas pw ph shape).path = piecePath pw ph shape ∧
    KNOB_RATIO = 0.2 := by
  refine ⟨?_, ?_, ?_, ?_, rfl, rfl⟩ <;> simp only [createPieceCanvas] <;> ring
